import Mathlib

/-!
Verification development for the PITR (point-in-time recovery) pipeline of
Better-PITR (`pitr/pitr.go`).

The single source file is embedded shallowly.  External collaborators
(shard discovery and filtering, the merge engine, the TiKV store client and
the DDL execution handle) are not part of the repository's source; they are
modelled as a deterministic environment `Env` of abstract result-returning
functions, and the observable effects the specification talks about
(store-driver registration, store handle lifetime, how often map / reduce /
the DDL pass ran, which statements were handed to the DDL primitive) are
tracked in an explicit instrumentation state `St` threaded through the
translated control flow.
-/

/-- `model.BinlogInfo`: the fields of a history DDL job used by the code.
`SchemaVersion` and `FinishedTS` are 64-bit integers in the data model. -/
structure BinlogInfoT where
  SchemaVersion : Int
  FinishedTS : Int
deriving DecidableEq, Repr

/-- `model.Job`: one historical schema-change job. -/
structure Job where
  ID : Int
  BinlogInfo : BinlogInfoT
deriving DecidableEq, Repr

/-- `pb.Binlog`: the only field the core reads is `CommitTs int64`. -/
structure Binlog where
  CommitTs : Int
deriving DecidableEq, Repr

/-- The configuration surface consumed by `pitr.go` (fields read by the
embedded functions, with the source's names). -/
structure Config where
  Dir : String
  StartTSO : Int
  StopTSO : Int
  schemaFile : String
  PDURLs : String
  reserveTempDir : Bool

/-- `historyDDLHandler`: tagged pair of raw DDL statements and structured
jobs; the source comments that at most one of the two is non-nil. -/
structure historyDDLHandler where
  ddlSQLs : List String
  ddlJobs : List Job
deriving DecidableEq, Repr

/-- Instrumentation state for the effects of one run: whether the process-wide
"tikv" driver is registered, whether the store handle is open, how many times
each phase ran, and the exact argument streams passed to the external DDL
primitives. -/
structure St where
  registered : Bool
  storeOpen : Bool
  registerCalls : Nat
  storeNewCalls : Nat
  snapshotCalls : Nat
  mapCalls : Nat
  reduceCalls : Nat
  executeCalls : Nat
  sqlArgs : List (String × String)
  jobArgs : List (List Job)
  ignoredLogs : List Job
  closedMerge : Bool
deriving DecidableEq, Repr

/-- The state at process start: nothing registered, no calls made. -/
def St.init : St :=
  ⟨false, false, 0, 0, 0, 0, 0, 0, [], [], [], false⟩

/-- The deterministic environment of external collaborators, together with
the configuration of the `PITR` object. -/
structure Env where
  cfg : Config
  searchFiles : String → Except String (List String)
  filterFiles : List String → Int → Int → Except String (List String × Int)
  getFirstBinlogCommitTSAndFileSize : String → Except String (Int × Int)
  readFile : String → Except String String
  urlsValue : String → Except String String
  storeNew : String → Except String Unit
  currentVersion : Except String Int
  getSnapshot : Int → Except String Unit
  getAllHistoryDDLJobs : Except String (List Job)
  newMerge : List String → Int → Except String Unit
  mergeMap : Int → Int → Except String Bool
  mergeReduce : Except String Unit
  ExecuteHistoryDDLs : List Job → Option String
  ExecuteDDL : String → String → Option String

/-- `errors.Annotate` of the pingcap errors library: when the wrapped error
is nil it returns nil, otherwise it wraps the error with the message. -/
def annotate (err : Option String) (msg : String) : Option String :=
  match err with
  | none => none
  | some e => some (msg ++ ": " ++ e)

/-- The statement loop of `historyDDLHandler.execute`: apply each raw DDL via
`ddlHandle.ExecuteDDL("", ddl)`, recording the arguments, stopping at the
first error. -/
def execSQLs (env : Env) : List String → St → Option String × St
  | [], st => (none, st)
  | sql :: rest, st =>
    let st1 : St := { st with sqlArgs := st.sqlArgs ++ [("", sql)] }
    match env.ExecuteDDL "" sql with
    | some e => (some e, st1)
    | none => execSQLs env rest st1

/-- `historyDDLHandler.execute`: if structured jobs are present hand the whole
list to `ddlHandle.ExecuteHistoryDDLs`, otherwise run the statement loop.
Each invocation of `execute` is counted in `executeCalls`. -/
def historyDDLHandler.execute (env : Env) (h : historyDDLHandler) (st : St) :
    Option String × St :=
  let st0 : St := { st with executeCalls := st.executeCalls + 1 }
  if h.ddlJobs.length ≠ 0 then
    (env.ExecuteHistoryDDLs h.ddlJobs,
      { st0 with jobArgs := st0.jobArgs ++ [h.ddlJobs] })
  else
    execSQLs env h.ddlSQLs st0

/-- `strings.Split(s, sep)` of the Go standard library for a one-character
separator: split around every occurrence of the character, keeping empty
pieces, so the result has one more piece than there are separators. -/
def splitChar (c : Char) : List Char → List (List Char)
  | [] => [[]]
  | a :: rest =>
    match splitChar c rest with
    | [] => if a = c then [[], []] else [[a]]
    | piece :: pieces =>
      if a = c then [] :: piece :: pieces else (a :: piece) :: pieces

/-- `strings.Split(content, "\n")` applied to a string. -/
def splitLines (s : String) : List String :=
  (splitChar (Char.ofNat 10) s.data).map String.mk

/-- `PITR.LoadBaseSchema`: read the configured schema file and split its
content on the newline character. -/
def LoadBaseSchema (env : Env) : Except String (List String) :=
  match env.readFile env.cfg.schemaFile with
  | .error e => .error e
  | .ok content => .ok (splitLines content)

/-- `isAcceptableBinlog`: the event-window acceptance predicate. -/
def isAcceptableBinlog (binlog : Binlog) (startTs endTs : Int) : Bool :=
  binlog.CommitTs ≥ startTs && (endTs == 0 || binlog.CommitTs ≤ endTs)

/-- `createTiStore`: parse the PD URLs, register the "tikv" driver
process-wide (`store.Register` fails when the name is already registered),
then open the store.  Note: when `store.New` fails the function returns
without de-registering the driver. -/
def createTiStore (env : Env) (urls : String) (st : St) :
    Except String Unit × St :=
  match env.urlsValue urls with
  | .error e => (.error e, st)
  | .ok host =>
    let st1 : St := { st with registerCalls := st.registerCalls + 1 }
    if st1.registered then
      (.error "store tikv is already registered", st1)
    else
      let st2 : St := { st1 with registered := true }
      let tiPath : String := "tikv://" ++ host ++ "?disableGC=true"
      let st3 : St := { st2 with storeNewCalls := st2.storeNewCalls + 1 }
      match env.storeNew tiPath with
      | .error e => (.error e, st3)
      | .ok _ => (.ok (), { st3 with storeOpen := true })

/-- `getSnapshotMeta`: fetch the store's current version and a snapshot at
that version. -/
def getSnapshotMeta (env : Env) (st : St) : Except String Unit × St :=
  match env.currentVersion with
  | .error e => (.error e, st)
  | .ok v =>
    let st1 : St := { st with snapshotCalls := st.snapshotCalls + 1 }
    match env.getSnapshot v with
    | .error e => (.error e, st1)
    | .ok _ => (.ok (), st1)

/-- The comparison used by the `sort.Slice` call in `loadHistoryDDLJobs`:
ascending `BinlogInfo.SchemaVersion`. -/
def bySchemaVersion (a b : Job) : Prop :=
  a.BinlogInfo.SchemaVersion ≤ b.BinlogInfo.SchemaVersion

instance : DecidableRel bySchemaVersion :=
  fun a b =>
    inferInstanceAs (Decidable (a.BinlogInfo.SchemaVersion ≤ b.BinlogInfo.SchemaVersion))

instance : IsTotal Job bySchemaVersion where
  total a b := Int.le_total a.BinlogInfo.SchemaVersion b.BinlogInfo.SchemaVersion

instance : IsTrans Job bySchemaVersion where
  trans _ _ _ hab hbc := Int.le_trans hab hbc

/-- The sort step of `loadHistoryDDLJobs`: order the jobs by ascending
`BinlogInfo.SchemaVersion` (the enumeration arrives ordered by job id;
`sort.Slice` is an unspecified comparison sort, modelled by a sort producing
a `bySchemaVersion`-sorted permutation). -/
def sortBySchemaVersion (jobs : List Job) : List Job :=
  jobs.insertionSort bySchemaVersion

/-- The filter loop of `loadHistoryDDLJobs`: keep jobs whose `FinishedTS` is
strictly below `beginTS`; the others are logged ("ignore history ddl job").
Returns the kept jobs and the logged/ignored jobs, both in input order. -/
def keepJobs (beginTS : Int) : List Job → List Job × List Job
  | [] => ([], [])
  | job :: rest =>
    let p := keepJobs beginTS rest
    if job.BinlogInfo.FinishedTS < beginTS then
      (job :: p.1, p.2)
    else
      (p.1, job :: p.2)

/-- Release performed by the `defer` in `loadHistoryDDLJobs`:
`tiStore.Close()` and `store.UnRegister("tikv")`. -/
def releaseStore (st : St) : St :=
  { st with storeOpen := false, registered := false }

/-- `loadHistoryDDLJobs`: create a store, and (with close + de-register
deferred from that point on) take a snapshot, enumerate all history DDL jobs,
sort them by schema version and keep those finished strictly before
`beginTS`. -/
def loadHistoryDDLJobs (env : Env) (beginTS : Int) (st : St) :
    Except String (List Job) × St :=
  match createTiStore env env.cfg.PDURLs st with
  | (.error e, st1) => (.error e, st1)
  | (.ok _, st1) =>
    match getSnapshotMeta env st1 with
    | (.error e, st2) => (.error e, releaseStore st2)
    | (.ok _, st2) =>
      match env.getAllHistoryDDLJobs with
      | .error e => (.error e, releaseStore st2)
      | .ok allJobs =>
        let sorted := sortBySchemaVersion allJobs
        let p := keepJobs beginTS sorted
        (.ok p.1, releaseStore { st2 with ignoredLogs := st2.ignoredLogs ++ p.2 })

/-- `fetchDDLBeforeStartTSO`: first-match source selection — a configured
schema file wins, else configured PD URLs, else an empty handler. -/
def fetchDDLBeforeStartTSO (env : Env) (startTSO : Int) (st : St) :
    Except String historyDDLHandler × St :=
  if env.cfg.schemaFile.length ≠ 0 then
    match LoadBaseSchema env with
    | .error e => (.error e, st)
    | .ok sqls => (.ok ⟨sqls, []⟩, st)
  else if env.cfg.PDURLs.length ≠ 0 then
    match loadHistoryDDLJobs env startTSO st with
    | (.error e, st1) => (.error (("load history ddls" ++ ": ") ++ e), st1)
    | (.ok jobs, st1) => (.ok ⟨[], jobs⟩, st1)
  else
    (.ok ⟨[], []⟩, st)

/-- The `startTSO` resolution block of `Process`: use the configured value
unless it is the sentinel 0, in which case read the first filtered shard's
first commit timestamp. -/
def resolveStartTSO (env : Env) (files : List String) : Except String Int :=
  if env.cfg.StartTSO = 0 then
    match env.getFirstBinlogCommitTSAndFileSize (files.headD "") with
    | .error e => .error ("get first binlog commit ts failed" ++ ": " ++ e)
    | .ok p => .ok p.1
  else
    .ok env.cfg.StartTSO

/-- The `defer merge.Close(...)` installed after `NewMerge` succeeds. -/
def closeMerge (st : St) : St :=
  { st with closedMerge := true }

/-- `PITR.Process`: the orchestrator.  Mirrors the Go control flow, including
the `errors.Annotate(err, ...)` calls on the two empty-file checks, where
`err` is nil at that point. -/
def Process (env : Env) (st : St) : Option String × St :=
  match env.searchFiles env.cfg.Dir with
  | .error e =>
    (annotate (some e) ("search files in directory " ++ env.cfg.Dir ++ " failed"), st)
  | .ok files0 =>
  if files0.length = 0 then
    (annotate none ("no file is searched in directory " ++ env.cfg.Dir), st)
  else
  match env.filterFiles files0 env.cfg.StartTSO env.cfg.StopTSO with
  | .error e => (annotate (some e) "filterFiles failed", st)
  | .ok fp =>
  if fp.1.length = 0 then
    (annotate none "no files remained between the time interval", st)
  else
  match resolveStartTSO env fp.1 with
  | .error e => (some e, st)
  | .ok startTSO =>
  match fetchDDLBeforeStartTSO env startTSO st with
  | (.error e, st1) => (some e, st1)
  | (.ok historyDDLs, st1) =>
  match env.newMerge fp.1 fp.2 with
  | .error e => (some e, st1)
  | .ok _ =>
  match historyDDLHandler.execute env historyDDLs st1 with
  | (some e, st2) => (some e, closeMerge st2)
  | (none, st2) =>
  let st3 : St := { st2 with mapCalls := st2.mapCalls + 1 }
  match env.mergeMap startTSO env.cfg.StopTSO with
  | .error e => (some e, closeMerge st3)
  | .ok noEventIsFound =>
  if noEventIsFound then
    (none, closeMerge st3)
  else
  match historyDDLHandler.execute env historyDDLs st3 with
  | (some e, st4) => (some e, closeMerge st4)
  | (none, st4) =>
  let st5 : St := { st4 with reduceCalls := st4.reduceCalls + 1 }
  match env.mergeReduce with
  | .error e => (some e, closeMerge st5)
  | .ok _ => (none, closeMerge st5)

/-! ### Spec-modelled schema catalog

The actual application of a DDL statement or structured job against a live
schema catalog is performed by external collaborators
(`ddlHandle.ExecuteDDL` / `ddlHandle.ExecuteHistoryDDLs`) that are outside
this repository's source. -/

/-- Modelled from the spec: the observable schema-catalog state mutated by
the external DDL primitives — the applied raw statements and the applied
structured jobs. -/
structure Catalog where
  appliedSQLs : List String
  appliedJobs : List Job
deriving DecidableEq, Repr

/-- Modelled from the spec: application of one item is a no-op when the item
has already been applied ("re-application of an already-applied schema state
must be a no-op"), otherwise it appends the item to the applied set. -/
def applyIfAbsent {α : Type} [DecidableEq α] (c : List α) (a : α) : List α :=
  if a ∈ c then c else c ++ [a]

/-- Modelled from the spec: `ddlHandle.ExecuteDDL` as a catalog update. -/
def ExecuteDDLCat (cat : Catalog) (sql : String) : Catalog :=
  { cat with appliedSQLs := applyIfAbsent cat.appliedSQLs sql }

/-- Modelled from the spec: `ddlHandle.ExecuteHistoryDDLs` as a bulk catalog
update over the ordered job list. -/
def ExecuteHistoryDDLsCat (cat : Catalog) (jobs : List Job) : Catalog :=
  { cat with appliedJobs := jobs.foldl applyIfAbsent cat.appliedJobs }

/-- `historyDDLHandler.execute` acting on the spec-modelled catalog: the
structured-job variant is handed to the bulk primitive, otherwise the raw
statements are applied in order. -/
def executeOnCatalog (h : historyDDLHandler) (cat : Catalog) :
    Except String Catalog :=
  if h.ddlJobs.length ≠ 0 then
    .ok (ExecuteHistoryDDLsCat cat h.ddlJobs)
  else
    .ok (h.ddlSQLs.foldl ExecuteDDLCat cat)

/-! ### Concrete environments used to witness the theorems -/

/-- A small configuration: explicit window, no schema file, no PD URLs. -/
def baseCfg : Config :=
  ⟨"dir", 1, 9, "", "", false⟩

/-- An environment in which every collaborator succeeds and the map phase
reports that no event was found. -/
def baseEnv : Env where
  cfg := baseCfg
  searchFiles := fun _ => .ok ["f1"]
  filterFiles := fun fs _ _ => .ok (fs, 7)
  getFirstBinlogCommitTSAndFileSize := fun _ => .ok (100, 5)
  readFile := fun _ => .ok "a\n\nb\n"
  urlsValue := fun _ => .ok "h"
  storeNew := fun _ => .ok ()
  currentVersion := .ok 3
  getSnapshot := fun _ => .ok ()
  getAllHistoryDDLJobs := .ok []
  newMerge := fun _ _ => .ok ()
  mergeMap := fun _ _ => .ok true
  mergeReduce := .ok ()
  ExecuteHistoryDDLs := fun _ => none
  ExecuteDDL := fun _ _ => none

/-- Environment whose shard discovery succeeds with zero files. -/
def envNoFiles : Env :=
  { baseEnv with searchFiles := fun _ => .ok [] }

/-- Environment whose window filtering leaves zero files. -/
def envNoWindow : Env :=
  { baseEnv with filterFiles := fun _ _ _ => .ok ([], 0) }

/-- Environment with a configured base-schema file (and, to exercise the
priority rule, also configured PD URLs). -/
def envFile : Env :=
  { baseEnv with cfg := { baseCfg with schemaFile := "schema.sql", PDURLs := "pd" } }

/-- Two history jobs: one finishing exactly at TSO 10 with schema version 5,
one finishing at TSO 9 with schema version 1 (listed in job-id order, which
is not schema-version order). -/
def jobsFixture : List Job :=
  [⟨1, ⟨5, 10⟩⟩, ⟨2, ⟨1, 9⟩⟩]

/-- Environment with only PD URLs configured and a working store that
enumerates `jobsFixture`. -/
def envStore : Env :=
  { baseEnv with
      cfg := { baseCfg with PDURLs := "pd", StartTSO := 10 }
      getAllHistoryDDLJobs := .ok jobsFixture }

/-- `envStore` whose `store.New` call fails after driver registration. -/
def envStoreBad : Env :=
  { envStore with storeNew := fun _ => .error "connect failed" }

/-! ### Helper lemmas -/

theorem execSQLs_counters (env : Env) (l : List String) : ∀ st : St,
    ((execSQLs env l st).2.mapCalls = st.mapCalls) ∧
    ((execSQLs env l st).2.reduceCalls = st.reduceCalls) ∧
    ((execSQLs env l st).2.executeCalls = st.executeCalls) := by
  induction l with
  | nil => intro st; exact ⟨rfl, rfl, rfl⟩
  | cons sql rest ih =>
    intro st
    simp only [execSQLs]
    cases env.ExecuteDDL "" sql with
    | some e => exact ⟨rfl, rfl, rfl⟩
    | none => exact ih _

theorem execute_counters (env : Env) (h : historyDDLHandler) (st : St) :
    ((historyDDLHandler.execute env h st).2.mapCalls = st.mapCalls) ∧
    ((historyDDLHandler.execute env h st).2.reduceCalls = st.reduceCalls) ∧
    ((historyDDLHandler.execute env h st).2.executeCalls = st.executeCalls + 1) := by
  unfold historyDDLHandler.execute
  dsimp only
  split
  · exact ⟨rfl, rfl, rfl⟩
  · exact execSQLs_counters env h.ddlSQLs _

theorem createTiStore_counters (env : Env) (urls : String) (st : St) :
    ((createTiStore env urls st).2.mapCalls = st.mapCalls) ∧
    ((createTiStore env urls st).2.reduceCalls = st.reduceCalls) ∧
    ((createTiStore env urls st).2.executeCalls = st.executeCalls) := by
  unfold createTiStore
  dsimp only
  repeat' split
  all_goals exact ⟨rfl, rfl, rfl⟩

theorem getSnapshotMeta_counters (env : Env) (st : St) :
    ((getSnapshotMeta env st).2.mapCalls = st.mapCalls) ∧
    ((getSnapshotMeta env st).2.reduceCalls = st.reduceCalls) ∧
    ((getSnapshotMeta env st).2.executeCalls = st.executeCalls) := by
  unfold getSnapshotMeta
  repeat' split
  all_goals exact ⟨rfl, rfl, rfl⟩

theorem loadHistoryDDLJobs_counters (env : Env) (t : Int) (st : St) :
    ((loadHistoryDDLJobs env t st).2.mapCalls = st.mapCalls) ∧
    ((loadHistoryDDLJobs env t st).2.reduceCalls = st.reduceCalls) ∧
    ((loadHistoryDDLJobs env t st).2.executeCalls = st.executeCalls) := by
  unfold loadHistoryDDLJobs
  rcases hc : createTiStore env env.cfg.PDURLs st with ⟨rc, st1⟩
  have hc2 := createTiStore_counters env env.cfg.PDURLs st
  rw [hc] at hc2
  cases rc with
  | error e => exact hc2
  | ok u =>
    dsimp only
    rcases hs : getSnapshotMeta env st1 with ⟨rs, st2⟩
    have hs2 := getSnapshotMeta_counters env st1
    rw [hs] at hs2
    have htrans : st2.mapCalls = st.mapCalls ∧ st2.reduceCalls = st.reduceCalls ∧
        st2.executeCalls = st.executeCalls := by
      exact ⟨hs2.1.trans hc2.1, hs2.2.1.trans hc2.2.1, hs2.2.2.trans hc2.2.2⟩
    cases rs with
    | error e => exact htrans
    | ok u2 =>
      dsimp only
      cases env.getAllHistoryDDLJobs with
      | error e => exact htrans
      | ok allJobs => exact htrans

theorem fetchDDL_counters (env : Env) (s : Int) (st : St) :
    ((fetchDDLBeforeStartTSO env s st).2.mapCalls = st.mapCalls) ∧
    ((fetchDDLBeforeStartTSO env s st).2.reduceCalls = st.reduceCalls) ∧
    ((fetchDDLBeforeStartTSO env s st).2.executeCalls = st.executeCalls) := by
  unfold fetchDDLBeforeStartTSO
  split
  · cases LoadBaseSchema env with
    | error e => exact ⟨rfl, rfl, rfl⟩
    | ok sqls => exact ⟨rfl, rfl, rfl⟩
  · split
    · rcases hl : loadHistoryDDLJobs env s st with ⟨rl, st1⟩
      have hl2 := loadHistoryDDLJobs_counters env s st
      rw [hl] at hl2
      cases rl with
      | error e => exact hl2
      | ok jobs => exact hl2
    · exact ⟨rfl, rfl, rfl⟩

theorem keepJobs_eq_filter (t : Int) (l : List Job) :
    keepJobs t l = (l.filter (fun j => decide (j.BinlogInfo.FinishedTS < t)),
                    l.filter (fun j => !decide (j.BinlogInfo.FinishedTS < t))) := by
  induction l with
  | nil => rfl
  | cons a rest ih =>
    simp only [keepJobs, ih]
    by_cases h : a.BinlogInfo.FinishedTS < t
    · simp [List.filter_cons, h]
    · simp [List.filter_cons, h]

theorem mem_applyIfAbsent {α : Type} [DecidableEq α] (c : List α) (a b : α)
    (h : b ∈ c) : b ∈ applyIfAbsent c a := by
  unfold applyIfAbsent
  split
  · exact h
  · exact List.mem_append_left _ h

theorem self_mem_applyIfAbsent {α : Type} [DecidableEq α] (c : List α) (a : α) :
    a ∈ applyIfAbsent c a := by
  unfold applyIfAbsent
  split
  · assumption
  · simp

theorem applyIfAbsent_of_mem {α : Type} [DecidableEq α] (c : List α) (a : α)
    (h : a ∈ c) : applyIfAbsent c a = c := by
  unfold applyIfAbsent
  rw [if_pos h]

theorem mem_foldl_applyIfAbsent {α : Type} [DecidableEq α] (l : List α) :
    ∀ (c : List α) (b : α), b ∈ c → b ∈ l.foldl applyIfAbsent c := by
  induction l with
  | nil => intro c b h; exact h
  | cons a rest ih =>
    intro c b h
    exact ih _ b (mem_applyIfAbsent c a b h)

theorem all_mem_foldl_applyIfAbsent {α : Type} [DecidableEq α] (l : List α) :
    ∀ (c : List α) (b : α), b ∈ l → b ∈ l.foldl applyIfAbsent c := by
  induction l with
  | nil => intro c b h; cases h
  | cons a rest ih =>
    intro c b h
    rcases List.mem_cons.mp h with rfl | hb
    · exact mem_foldl_applyIfAbsent rest _ b (self_mem_applyIfAbsent c b)
    · exact ih _ b hb

theorem foldl_applyIfAbsent_of_subset {α : Type} [DecidableEq α] (l : List α) :
    ∀ c : List α, (∀ b ∈ l, b ∈ c) → l.foldl applyIfAbsent c = c := by
  induction l with
  | nil => intro c _; rfl
  | cons a rest ih =>
    intro c h
    have ha : applyIfAbsent c a = c :=
      applyIfAbsent_of_mem c a (h a (List.mem_cons_self a rest))
    simp only [List.foldl_cons, ha]
    exact ih c fun b hb => h b (List.mem_cons_of_mem a hb)

theorem foldl_ExecuteDDLCat_eq (l : List String) : ∀ cat : Catalog,
    l.foldl ExecuteDDLCat cat =
      { cat with appliedSQLs := l.foldl applyIfAbsent cat.appliedSQLs } := by
  induction l with
  | nil => intro cat; rfl
  | cons a rest ih =>
    intro cat
    simp only [List.foldl_cons, ih]
    rfl

/-- C5: for every event and window, `isAcceptableBinlog` accepts exactly the
events with `CommitTs ≥ startTs` and, unless `endTs` is the unbounded
sentinel 0, `CommitTs ≤ endTs`; both boundaries are inclusive. -/
theorem isAcceptableBinlog_spec (b : Binlog) (s t : Int) :
    isAcceptableBinlog b s t = true ↔ (b.CommitTs ≥ s ∧ (t = 0 ∨ b.CommitTs ≤ t)) := by
  unfold isAcceptableBinlog
  simp [Bool.and_eq_true, Bool.or_eq_true, decide_eq_true_eq, beq_iff_eq]

/-- C2 (divergence witness, code bug): when shard discovery succeeds with
zero files, and likewise when window filtering leaves zero files, `Process`
returns nil — success — because `errors.Annotate` is applied to a nil error;
the specified behavior is a discovery error. -/
theorem process_no_files_returns_success :
    (Process envNoFiles St.init).1 = none ∧ (Process envNoWindow St.init).1 = none := by
  constructor <;> rfl

/-- C7: executing the same resolved schema-change source twice against the
spec-modelled catalog succeeds and leaves the catalog in the same state as
executing it once. -/
theorem executeOnCatalog_idem (h : historyDDLHandler) (cat : Catalog) :
    ∃ c1, executeOnCatalog h cat = Except.ok c1 ∧ executeOnCatalog h c1 = Except.ok c1 := by
  unfold executeOnCatalog
  split
  · refine ⟨ExecuteHistoryDDLsCat cat h.ddlJobs, rfl, ?_⟩
    unfold ExecuteHistoryDDLsCat
    have hfix : h.ddlJobs.foldl applyIfAbsent (h.ddlJobs.foldl applyIfAbsent cat.appliedJobs) =
        h.ddlJobs.foldl applyIfAbsent cat.appliedJobs :=
      foldl_applyIfAbsent_of_subset h.ddlJobs _
        (fun b hb => all_mem_foldl_applyIfAbsent h.ddlJobs cat.appliedJobs b hb)
    simp only [hfix]
  · refine ⟨h.ddlSQLs.foldl ExecuteDDLCat cat, rfl, ?_⟩
    rw [foldl_ExecuteDDLCat_eq, foldl_ExecuteDDLCat_eq]
    have hfix : h.ddlSQLs.foldl applyIfAbsent (h.ddlSQLs.foldl applyIfAbsent cat.appliedSQLs) =
        h.ddlSQLs.foldl applyIfAbsent cat.appliedSQLs :=
      foldl_applyIfAbsent_of_subset h.ddlSQLs _
        (fun b hb => all_mem_foldl_applyIfAbsent h.ddlSQLs cat.appliedSQLs b hb)
    simp only [hfix]

/-- C3: when store creation, snapshot acquisition and job enumeration all
succeed, the job-source resolver returns success and its output contains a
job exactly when the job was enumerated and its `FinishedTS` is strictly
below `startTSO`; a job finishing exactly at `startTSO` is not retained but
is logged, and exclusions cause no error. -/
theorem loadHistoryDDLJobs_retains_iff (env : Env) (t : Int) (st : St)
    (host : String) (v : Int) (allJobs : List Job)
    (hurl : env.urlsValue env.cfg.PDURLs = .ok host)
    (hreg : st.registered = false)
    (hnew : env.storeNew ("tikv://" ++ host ++ "?disableGC=true") = .ok ())
    (hver : env.currentVersion = .ok v)
    (hsnap : env.getSnapshot v = .ok ())
    (hjobs : env.getAllHistoryDDLJobs = .ok allJobs) :
    ∃ l, (loadHistoryDDLJobs env t st).1 = .ok l ∧
      (∀ j, j ∈ l ↔ j ∈ allJobs ∧ j.BinlogInfo.FinishedTS < t) ∧
      (∀ j ∈ allJobs, ¬ j.BinlogInfo.FinishedTS < t →
        j ∈ (loadHistoryDDLJobs env t st).2.ignoredLogs) := by
  have hload : loadHistoryDDLJobs env t st =
      (Except.ok ((keepJobs t (sortBySchemaVersion allJobs)).1),
       { st with registered := false, storeOpen := false,
                 registerCalls := st.registerCalls + 1,
                 storeNewCalls := st.storeNewCalls + 1,
                 snapshotCalls := st.snapshotCalls + 1,
                 ignoredLogs := st.ignoredLogs ++
                   (keepJobs t (sortBySchemaVersion allJobs)).2 }) := by
    unfold loadHistoryDDLJobs createTiStore getSnapshotMeta
    rw [hurl]
    try dsimp only
    rw [if_neg (by simp [hreg])]
    try dsimp only
    rw [hnew]
    try dsimp only
    rw [hver]
    try dsimp only
    rw [hsnap]
    try dsimp only
    rw [hjobs]
    rfl
  refine ⟨(keepJobs t (sortBySchemaVersion allJobs)).1, by rw [hload], ?_, ?_⟩
  · intro j
    rw [keepJobs_eq_filter]
    simp only [List.mem_filter, decide_eq_true_eq]
    unfold sortBySchemaVersion
    rw [List.mem_insertionSort]
  · intro j hj hnot
    rw [hload]
    dsimp only
    rw [keepJobs_eq_filter]
    refine List.mem_append_right _ ?_
    refine List.mem_filter.mpr ⟨?_, ?_⟩
    · unfold sortBySchemaVersion
      exact (List.mem_insertionSort bySchemaVersion).mpr hj
    · simp [hnot]

/-- C4: whatever the enumeration order of the input jobs, any job list that
the resolver returns successfully is sorted in ascending order of
`BinlogInfo.SchemaVersion`. -/
theorem loadHistoryDDLJobs_sorted (env : Env) (t : Int) (st : St)
    (l : List Job) (h : (loadHistoryDDLJobs env t st).1 = Except.ok l) :
    l.Pairwise (fun a b => a.BinlogInfo.SchemaVersion ≤ b.BinlogInfo.SchemaVersion) := by
  unfold loadHistoryDDLJobs at h
  rcases hc : createTiStore env env.cfg.PDURLs st with ⟨rc, st1⟩
  rw [hc] at h
  cases rc with
  | error e => simp at h
  | ok u =>
    dsimp only at h
    rcases hs : getSnapshotMeta env st1 with ⟨rs, st2⟩
    rw [hs] at h
    cases rs with
    | error e => simp at h
    | ok u2 =>
      dsimp only at h
      cases hj : env.getAllHistoryDDLJobs with
      | error e => rw [hj] at h; simp at h
      | ok allJobs =>
        rw [hj] at h
        dsimp only at h
        have hl : (keepJobs t (sortBySchemaVersion allJobs)).1 = l := by
          injection h
        subst hl
        rw [keepJobs_eq_filter]
        apply List.Pairwise.filter
        exact List.sorted_insertionSort bySchemaVersion allJobs

/-- C8: every handler that `fetchDDLBeforeStartTSO` returns successfully has
at most one populated variant: its raw-statement list and its structured-job
list are never both non-empty. -/
theorem fetchDDL_at_most_one_variant (env : Env) (s : Int) (st : St)
    (h : historyDDLHandler)
    (hfetch : (fetchDDLBeforeStartTSO env s st).1 = Except.ok h) :
    h.ddlSQLs = [] ∨ h.ddlJobs = [] := by
  unfold fetchDDLBeforeStartTSO at hfetch
  split at hfetch
  · cases hl : LoadBaseSchema env with
    | error e => rw [hl] at hfetch; simp at hfetch
    | ok sqls =>
      rw [hl] at hfetch
      dsimp only at hfetch
      injection hfetch with hh
      rw [← hh]
      exact Or.inr rfl
  · split at hfetch
    · rcases hload : loadHistoryDDLJobs env s st with ⟨rl, st1⟩
      rw [hload] at hfetch
      cases rl with
      | error e => simp at hfetch
      | ok jobs =>
        dsimp only at hfetch
        injection hfetch with hh
        rw [← hh]
        exact Or.inl rfl
    · dsimp only at hfetch
      injection hfetch with hh
      rw [← hh]
      exact Or.inl rfl

/-- C8 witness: the empty configuration yields the empty handler, whose two
variants are trivially not both populated. -/
theorem fetchDDL_at_most_one_variant_witness :
    (historyDDLHandler.mk [] []).ddlSQLs = [] ∨
    (historyDDLHandler.mk [] []).ddlJobs = [] :=
  fetchDDL_at_most_one_variant baseEnv 5 St.init ⟨[], []⟩ rfl

/-- C9 counterexample: a run of `loadHistoryDDLJobs` in which `store.New`
fails after the "tikv" driver was registered returns an error while leaving
the driver registered — the registration is not released on this path. -/
theorem loadHistoryDDLJobs_registration_leak :
    (loadHistoryDDLJobs envStoreBad 10 St.init).1 = Except.error "connect failed" ∧
    (loadHistoryDDLJobs envStoreBad 10 St.init).2.registered = true := by
  exact ⟨rfl, rfl⟩

/-- C9 (amended): on every run of `loadHistoryDDLJobs` in which store
creation succeeds, by the time it returns the store handle is closed and the
process-wide "tikv" driver registration is de-registered. -/
theorem loadHistoryDDLJobs_release_after_store_created (env : Env) (t : Int)
    (st : St) (h : (createTiStore env env.cfg.PDURLs st).1 = Except.ok ()) :
    (loadHistoryDDLJobs env t st).2.registered = false ∧
    (loadHistoryDDLJobs env t st).2.storeOpen = false := by
  unfold loadHistoryDDLJobs
  rcases hc : createTiStore env env.cfg.PDURLs st with ⟨rc, st1⟩
  rw [hc] at h
  cases rc with
  | error e => exact absurd h (by simp)
  | ok u =>
    dsimp only
    repeat' split
    all_goals exact ⟨rfl, rfl⟩

/-- C9 (amended) witness: with a working store, the run returns with the
driver de-registered and the store closed. -/
theorem loadHistoryDDLJobs_release_witness :
    (loadHistoryDDLJobs envStore 10 St.init).2.registered = false ∧
    (loadHistoryDDLJobs envStore 10 St.init).2.storeOpen = false :=
  loadHistoryDDLJobs_release_after_store_created envStore 10 St.init rfl

theorem execSQLs_args (env : Env) (hok : ∀ s, env.ExecuteDDL "" s = none) :
    ∀ (l : List String) (st : St),
      (execSQLs env l st).1 = none ∧
      (execSQLs env l st).2.sqlArgs = st.sqlArgs ++ l.map (fun s => ("", s)) := by
  intro l
  induction l with
  | nil =>
    intro st
    refine ⟨rfl, ?_⟩
    show st.sqlArgs = st.sqlArgs ++ List.map (fun s => ("", s)) []
    simp
  | cons sql rest ih =>
    intro st
    simp only [execSQLs, hok sql]
    refine ⟨(ih _).1, ?_⟩
    rw [(ih _).2]
    simp

/-- C10: for every readable base-schema file, `LoadBaseSchema` returns
exactly the file content split on the newline character (empty pieces
included), and `execute` passes each element of that list — empty strings
included — to the statement-application primitive, in file order, under the
empty namespace. -/
theorem loadBaseSchema_split_and_execute (env : Env) (content : String)
    (st : St) (hread : env.readFile env.cfg.schemaFile = .ok content)
    (hok : ∀ s, env.ExecuteDDL "" s = none) :
    LoadBaseSchema env = .ok (splitLines content) ∧
    (historyDDLHandler.execute env ⟨splitLines content, []⟩ st).2.sqlArgs =
      st.sqlArgs ++ (splitLines content).map (fun s => ("", s)) := by
  constructor
  · unfold LoadBaseSchema
    rw [hread]
  · unfold historyDDLHandler.execute
    dsimp only
    rw [if_neg (by simp)]
    exact (execSQLs_args env hok (splitLines content) _).2

/-- C6: schema-history source selection is first-match-wins — a configured
schema file yields the file-derived statement source with no store
interaction at all (even when PD URLs are also configured); otherwise
configured PD URLs yield the structured-job source; with neither configured
the result is the empty handler, whose execution is a no-op. -/
theorem fetchDDL_source_selection (env : Env) (s : Int) (st : St) :
    (env.cfg.schemaFile.length ≠ 0 →
      (fetchDDLBeforeStartTSO env s st).2 = st ∧
      ∀ h, (fetchDDLBeforeStartTSO env s st).1 = Except.ok h →
        h.ddlJobs = [] ∧ ∃ content, env.readFile env.cfg.schemaFile = .ok content ∧
          h.ddlSQLs = splitLines content) ∧
    (env.cfg.schemaFile.length = 0 → env.cfg.PDURLs.length ≠ 0 →
      ∀ h, (fetchDDLBeforeStartTSO env s st).1 = Except.ok h →
        h.ddlSQLs = [] ∧ (loadHistoryDDLJobs env s st).1 = Except.ok h.ddlJobs) ∧
    (env.cfg.schemaFile.length = 0 → env.cfg.PDURLs.length = 0 →
      fetchDDLBeforeStartTSO env s st = (Except.ok ⟨[], []⟩, st) ∧
      (historyDDLHandler.execute env ⟨[], []⟩ st).1 = none ∧
      (historyDDLHandler.execute env ⟨[], []⟩ st).2.sqlArgs = st.sqlArgs ∧
      (historyDDLHandler.execute env ⟨[], []⟩ st).2.jobArgs = st.jobArgs) := by
  refine ⟨?_, ?_, ?_⟩
  · intro hs
    cases hr : env.readFile env.cfg.schemaFile with
    | error e =>
      have hfe : fetchDDLBeforeStartTSO env s st = (.error e, st) := by
        unfold fetchDDLBeforeStartTSO LoadBaseSchema
        rw [if_pos hs, hr]
      rw [hfe]
      exact ⟨rfl, by intro h hh; simp at hh⟩
    | ok content =>
      have hfe : fetchDDLBeforeStartTSO env s st =
          (.ok ⟨splitLines content, []⟩, st) := by
        unfold fetchDDLBeforeStartTSO LoadBaseSchema
        rw [if_pos hs, hr]
      rw [hfe]
      refine ⟨rfl, ?_⟩
      intro h hh
      injection hh with hh2
      rw [← hh2]
      exact ⟨rfl, content, rfl, rfl⟩
  · intro hs hp
    unfold fetchDDLBeforeStartTSO
    rw [if_neg (by simp [hs]), if_pos hp]
    rcases hl : loadHistoryDDLJobs env s st with ⟨rl, st1⟩
    cases rl with
    | error e =>
      intro h hh
      simp at hh
    | ok jobs =>
      intro h hh
      dsimp only at hh
      injection hh with hh2
      rw [← hh2]
      exact ⟨rfl, rfl⟩
  · intro hs hp
    refine ⟨?_, rfl, rfl, rfl⟩
    unfold fetchDDLBeforeStartTSO
    rw [if_neg (by simp [hs]), if_neg (by simp [hp])]

/-- C6 witness: concrete instantiations of the three selection branches. -/
theorem fetchDDL_source_selection_witness :
    ((fetchDDLBeforeStartTSO envFile 5 St.init).2 = St.init ∧
      ∀ h, (fetchDDLBeforeStartTSO envFile 5 St.init).1 = Except.ok h →
        h.ddlJobs = [] ∧ ∃ content,
          envFile.readFile envFile.cfg.schemaFile = .ok content ∧
          h.ddlSQLs = splitLines content) ∧
    ((∀ h, (fetchDDLBeforeStartTSO envStore 5 St.init).1 = Except.ok h →
      h.ddlSQLs = [] ∧
      (loadHistoryDDLJobs envStore 5 St.init).1 = Except.ok h.ddlJobs)) ∧
    (fetchDDLBeforeStartTSO baseEnv 5 St.init = (Except.ok ⟨[], []⟩, St.init) ∧
      (historyDDLHandler.execute baseEnv ⟨[], []⟩ St.init).1 = none ∧
      (historyDDLHandler.execute baseEnv ⟨[], []⟩ St.init).2.sqlArgs = St.init.sqlArgs ∧
      (historyDDLHandler.execute baseEnv ⟨[], []⟩ St.init).2.jobArgs = St.init.jobArgs) :=
  ⟨(fetchDDL_source_selection envFile 5 St.init).1 (by decide),
   (fetchDDL_source_selection envStore 5 St.init).2.1 (by decide) (by decide),
   (fetchDDL_source_selection baseEnv 5 St.init).2.2 (by decide) (by decide)⟩

/-- C1: in every run of `Process` that reaches the map phase and in which the
merge engine reports that no event was found in the window, `Process`
terminates successfully, the reduce phase is never invoked, and the DDL pass
runs exactly once (the second pass is skipped). -/
theorem process_noEvent_short_circuit (env : Env) (st : St)
    (files0 : List String) (fp : List String × Int) (startTSO : Int)
    (hdl : historyDDLHandler) (st1 st2 : St)
    (hsf : env.searchFiles env.cfg.Dir = .ok files0)
    (hne0 : ¬ files0.length = 0)
    (hff : env.filterFiles files0 env.cfg.StartTSO env.cfg.StopTSO = .ok fp)
    (hne1 : ¬ fp.1.length = 0)
    (hrs : resolveStartTSO env fp.1 = .ok startTSO)
    (hfd : fetchDDLBeforeStartTSO env startTSO st = (.ok hdl, st1))
    (hnm : env.newMerge fp.1 fp.2 = .ok ())
    (hex : historyDDLHandler.execute env hdl st1 = (none, st2))
    (hmap : env.mergeMap startTSO env.cfg.StopTSO = .ok true) :
    (Process env st).1 = none ∧
    (Process env st).2.reduceCalls = st.reduceCalls ∧
    (Process env st).2.executeCalls = st.executeCalls + 1 := by
  have hProc : Process env st =
      (none, closeMerge { st2 with mapCalls := st2.mapCalls + 1 }) := by
    unfold Process
    rw [hsf]
    try dsimp only
    rw [if_neg hne0, hff]
    try dsimp only
    rw [if_neg hne1, hrs]
    try dsimp only
    rw [hfd]
    try dsimp only
    rw [hnm]
    try dsimp only
    rw [hex]
    try dsimp only
    rw [hmap]
    rfl
  rw [hProc]
  have h1 := fetchDDL_counters env startTSO st
  rw [hfd] at h1
  have h2 := execute_counters env hdl st1
  rw [hex] at h2
  refine ⟨rfl, ?_, ?_⟩
  · show st2.reduceCalls = st.reduceCalls
    exact h2.2.1.trans h1.2.1
  · show st2.executeCalls = st.executeCalls + 1
    rw [h2.2.2, h1.2.2]

/-- C1 witness: a concrete all-success run whose map phase finds no event. -/
theorem process_noEvent_short_circuit_witness :
    (Process baseEnv St.init).1 = none ∧
    (Process baseEnv St.init).2.reduceCalls = St.init.reduceCalls ∧
    (Process baseEnv St.init).2.executeCalls = St.init.executeCalls + 1 :=
  process_noEvent_short_circuit baseEnv St.init ["f1"] (["f1"], 7) 1 ⟨[], []⟩
    St.init ⟨false, false, 0, 0, 0, 0, 0, 1, [], [], [], false⟩
    rfl (by decide) rfl (by decide) rfl rfl rfl rfl rfl

/-- C3 witness: with a working store, a job finishing at TSO 9 is retained
for start TSO 10 while the job finishing exactly at TSO 10 is excluded and
logged, with no error. -/
theorem loadHistoryDDLJobs_retains_iff_witness :
    ∃ l, (loadHistoryDDLJobs envStore 10 St.init).1 = .ok l ∧
      (∀ j, j ∈ l ↔ j ∈ jobsFixture ∧ j.BinlogInfo.FinishedTS < 10) ∧
      (∀ j ∈ jobsFixture, ¬ j.BinlogInfo.FinishedTS < 10 →
        j ∈ (loadHistoryDDLJobs envStore 10 St.init).2.ignoredLogs) :=
  loadHistoryDDLJobs_retains_iff envStore 10 St.init "h" 3 jobsFixture
    rfl rfl rfl rfl rfl rfl

/-- C4 witness: the concrete resolver run returns its jobs sorted by schema
version. -/
theorem loadHistoryDDLJobs_sorted_witness :
    ([⟨2, ⟨1, 9⟩⟩] : List Job).Pairwise
      (fun a b => a.BinlogInfo.SchemaVersion ≤ b.BinlogInfo.SchemaVersion) :=
  loadHistoryDDLJobs_sorted envStore 10 St.init [⟨2, ⟨1, 9⟩⟩] rfl

/-- C10 witness: a file whose content has a blank line and a trailing
newline splits into four statements, two of them empty, and all four are
passed to the DDL primitive in order. -/
theorem loadBaseSchema_split_and_execute_witness :
    LoadBaseSchema envFile = .ok (splitLines "a\n\nb\n") ∧
    (historyDDLHandler.execute envFile ⟨splitLines "a\n\nb\n", []⟩ St.init).2.sqlArgs =
      St.init.sqlArgs ++ (splitLines "a\n\nb\n").map (fun s => ("", s)) :=
  loadBaseSchema_split_and_execute envFile "a\n\nb\n" St.init rfl (fun _ => rfl)
